import Mathlib

/-!
# Verification of the Release-Notes-Generator pipeline

A shallow embedding of the release-notes generation pipeline
(`app/Jira_agent.py`, `app/github_agent.py`, `app/guardrails.py`,
`jira_mcp_server.py`) together with proofs of the specification claims.

Conventions of the embedding:
* Python strings are modelled as `String` / `List Char`; character-level
  transformations work on `List Char`.
* Python regular-expression substitutions used by the code
  (`\[([^\]]+)\]\(([^)]+)\)`, `^[\*\-\+]\s*`, `\s+`, `\*\*(.*?)\*\*`)
  are implemented as explicit executable scanners that follow the leftmost,
  greedy/lazy semantics of Python's `re.sub` for those particular patterns.
* HTTP and LLM effects are modelled as oracles packaged in a "world"
  structure; `requests` exceptions and non-2xx responses become explicit
  error constructors carrying their message (the code turns them into
  `"Error: ..."` strings).
* JSON plumbing between pipeline stages is modelled at the structured-data
  level: a successful stage passes a record, a failing one an error string
  (a successful `json.dumps` payload never starts with `"Error:"`, so the
  `startswith("Error:")` checks in the code are exactly a sum-type match).
-/

namespace RelNotes

/-- Python `\s` / `str.strip()` whitespace for the ASCII range
(the only characters relevant to the texts handled here). -/
def pyWs (c : Char) : Bool :=
  c = ' ' || c = '\t' || c = '\n' || c = '\r' || c = '\x0b' || c = '\x0c'

/-- Leading-whitespace strip (`dropWhile`). -/
def stripLead (l : List Char) : List Char := l.dropWhile pyWs

/-- Trailing-whitespace strip. -/
def stripTrail (l : List Char) : List Char := (l.reverse.dropWhile pyWs).reverse

/-- Python `str.strip()`. -/
def pyStrip (l : List Char) : List Char := stripTrail (stripLead l)

/-- `str.strip()` on `String`. -/
def pyStripStr (s : String) : String := ⟨pyStrip s.data⟩

/-- Python `str.upper()` (ASCII letters). -/
def upperStr (s : String) : String := ⟨s.data.map Char.toUpper⟩

/-- Model of `re.sub(r"\s+", " ", line)`: every maximal run of whitespace
characters is replaced by a single space. -/
def collapseWs : List Char → List Char
  | [] => []
  | [c] => if pyWs c then [' '] else [c]
  | c₁ :: c₂ :: rest =>
      if pyWs c₁ then
        if pyWs c₂ then collapseWs (c₂ :: rest)
        else ' ' :: collapseWs (c₂ :: rest)
      else c₁ :: collapseWs (c₂ :: rest)

/-- `re.sub(r"\s+", " ", line).strip()` — the final two steps of
`clean_github_line`. -/
def normalizeWs (l : List Char) : List Char := pyStrip (collapseWs l)

/-- Model of `re.sub(r"^[\*\-\+]\s*", "", line)`: remove one leading bullet
glyph together with the whitespace run following it. -/
def bulletStrip : List Char → List Char
  | [] => []
  | c :: rest =>
      if c = '*' || c = '-' || c = '+' then rest.dropWhile pyWs
      else c :: rest

/-- One attempted match of `\[([^\]]+)\]\(([^)]+)\)` at the head of the
input; returns the link text (capture group 1) and the remaining input.
Backtracking cannot lengthen `[^\]]+` past the first `]` (nor `[^)]+` past
the first `)`), so the greedy match is this deterministic scan. -/
def matchLink (l : List Char) : Option (List Char × List Char) :=
  match l with
  | '[' :: rest =>
      let t₁ := rest.takeWhile (· ≠ ']')
      match rest.dropWhile (· ≠ ']') with
      | ']' :: '(' :: rest₂ =>
          let t₂ := rest₂.takeWhile (· ≠ ')')
          match rest₂.dropWhile (· ≠ ')') with
          | ')' :: rest₃ =>
              if t₁ = [] || t₂ = [] then none else some (t₁, rest₃)
          | _ => none
      | _ => none
  | _ => none

/-- Fuel-driven scanner for `re.sub(r"\[([^\]]+)\]\(([^)]+)\)", r"\1", line)`:
at each position try to match a markdown link and replace it by its text,
otherwise advance one character.  `fuel = length` always suffices because
every step consumes at least one character. -/
def linkAux : Nat → List Char → List Char
  | 0, l => l
  | _ + 1, [] => []
  | fuel + 1, c :: rest =>
      match matchLink (c :: rest) with
      | some (t₁, rest₃) => t₁ ++ linkAux fuel rest₃
      | none => c :: linkAux fuel rest

/-- `re.sub(r"\[([^\]]+)\]\(([^)]+)\)", r"\1", line)`. -/
def linkSub (l : List Char) : List Char := linkAux l.length l

/-- `clean_github_line` (github_agent.py, lines 190–203): drop markdown
links, backticks and a single leading bullet, then collapse whitespace and
strip. -/
def cleanL (l : List Char) : List Char :=
  normalizeWs (bulletStrip ((linkSub l).filter (· ≠ '`')))

/-- `clean_github_line` on `String`. -/
def clean_github_line (s : String) : String := ⟨cleanL s.data⟩

/-! ## Release-host classification (github_agent.py, lines 206–259) -/

/-- Substring containment (Python's `needle in hay`). -/
def containsSub (hay needle : List Char) : Bool :=
  match hay with
  | [] => needle.isEmpty
  | _ :: t => needle.isPrefixOf hay || containsSub t needle

/-- The four fixed release-host categories. -/
inductive Category where
  | features
  | bugFixes
  | improvements
  | others
deriving DecidableEq, Repr

/-- Keyword classification of one cleaned line (the `if/elif` chain of
`classify_and_summarize_release`): the line is lowercased, then tested for
substrings in the source's order. -/
def classifyLine (ln : List Char) : Category :=
  let low := ln.map Char.toLower
  if containsSub low "fix".data || containsSub low "bug".data then .bugFixes
  else if containsSub low "feature".data || containsSub low "add".data ||
      containsSub low "new".data then .features
  else if containsSub low "improve".data || containsSub low "update".data ||
      containsSub low "enhance".data then .improvements
  else .others

/-- The four accumulating lists of `classify_and_summarize_release`. -/
structure GhBuckets where
  features : List (List Char)
  bugFixes : List (List Char)
  improvements : List (List Char)
  others : List (List Char)
deriving Repr

def GhBuckets.empty : GhBuckets := ⟨[], [], [], []⟩

/-- Field selection by category. -/
def GhBuckets.get (b : GhBuckets) : Category → List (List Char)
  | .features => b.features
  | .bugFixes => b.bugFixes
  | .improvements => b.improvements
  | .others => b.others

/-- One iteration of the classification loop: append the line to the bucket
selected by its keywords. -/
def ghStep (b : GhBuckets) (ln : List Char) : GhBuckets :=
  match classifyLine ln with
  | .features => { b with features := b.features ++ [ln] }
  | .bugFixes => { b with bugFixes := b.bugFixes ++ [ln] }
  | .improvements => { b with improvements := b.improvements ++ [ln] }
  | .others => { b with others := b.others ++ [ln] }

/-- The classification loop of `classify_and_summarize_release`. -/
def ghBuckets (lines : List (List Char)) : GhBuckets :=
  lines.foldl ghStep .empty

/-- Display names of the categories, in the dict-literal insertion order of
the source. -/
def Category.name : Category → String
  | .features => "Features"
  | .bugFixes => "Bug Fixes"
  | .improvements => "Improvements"
  | .others => "Others"

/-- The canonical insertion order of the `categories` dict literal. -/
def ghOrder : List Category := [.features, .bugFixes, .improvements, .others]

/-- The `categories` mapping returned by `classify_and_summarize_release`:
the four buckets in dict insertion order, empty ones removed
(`{k: v for k, v in categories.items() if v}`). -/
def ghCategories (lines : List (List Char)) : List (String × List (List Char)) :=
  (ghOrder.map (fun c => (c.name, (ghBuckets lines).get c))).filter
    (fun p => !p.2.isEmpty)

/-! ## Body splitting and cleaning loop (github_agent.py, lines 213–224) -/

/-- Python `str.splitlines()` restricted to the `\n`, `\r\n`, `\r`
terminators (no trailing empty line). -/
def splitLinesAux (acc : List Char) : List Char → List (List Char)
  | [] => if acc.isEmpty then [] else [acc.reverse]
  | '\r' :: '\n' :: rest => acc.reverse :: splitLinesAux [] rest
  | '\r' :: rest => acc.reverse :: splitLinesAux [] rest
  | '\n' :: rest => acc.reverse :: splitLinesAux [] rest
  | c :: rest => splitLinesAux (c :: acc) rest

def splitLinesPy (l : List Char) : List (List Char) := splitLinesAux [] l

/-- The cleaning loop of `classify_and_summarize_release`: strip each raw
line, drop it if blank, clean it, drop it if the cleaned form is empty. -/
def cleanedLines (body : List Char) : List (List Char) :=
  (splitLinesPy body).filterMap (fun ln =>
    let s := pyStrip ln
    if s.isEmpty then none
    else
      let c := cleanL s
      if c.isEmpty then none else some c)

/-! ## Emphasis substitution and the PDF renderer
(`save_to_pdf` in Jira_agent.py lines 212–254 and github_agent.py
lines 301–340 — the two copies are identical). -/

/-- Replacement text of `re.sub(r"\*\*(.*?)\*\*", r'<font color="blue">\1</font>', line)`
for one captured group. -/
def fontWrap (g : List Char) : List Char :=
  "<font color=\"blue\">".data ++ g ++ "</font>".data

/-- The lazy search for the closing `**`: returns the shortest group and the
remainder after the closing marker. -/
def findClose : List Char → Option (List Char × List Char)
  | '*' :: '*' :: rest => some ([], rest)
  | c :: rest => (findClose rest).map (fun p => (c :: p.1, p.2))
  | [] => none

/-- Fuel-driven scanner for `re.sub(r"\*\*(.*?)\*\*", ..., line)`: at each
position, an opening `**` with a (lazily minimal) closing `**` is replaced;
otherwise the scanner advances one character.  `fuel = length` suffices. -/
def emphAux : Nat → List Char → List Char
  | 0, l => l
  | _ + 1, [] => []
  | fuel + 1, c :: rest =>
      if c = '*' && rest.head?.any (· = '*') then
        match findClose rest.tail with
        | some (g, r) => fontWrap g ++ emphAux fuel r
        | none => c :: emphAux fuel rest
      else c :: emphAux fuel rest

/-- The emphasis-span substitution applied by the renderer. -/
def emphL (l : List Char) : List Char := emphAux l.length l

/-- The styled blocks (`Spacer` / `Paragraph` with one of the four styles)
that `save_to_pdf` appends to its `story`. -/
inductive Block where
  | spacer
  | h1 (text : String)
  | h2 (text : String)
  | listItem (text : String)
  | body (text : String)
deriving DecidableEq, Repr

/-- The branch structure of the `save_to_pdf` loop body, applied to the
already-stripped line: `if not line` → spacer; `startswith("# ")` → H1 with
`line[2:]`; `startswith("## ")` → H2 with `line[3:]`; `startswith("- ")` →
emphasis substitution then `"- " + line[2:]`; otherwise emphasis
substitution as body text. -/
def renderBlockOf (s : List Char) : Block :=
  if s.isEmpty then .spacer
  else if ['#', ' '].isPrefixOf s then .h1 ⟨s.drop 2⟩
  else if ['#', '#', ' '].isPrefixOf s then .h2 ⟨s.drop 3⟩
  else if ['-', ' '].isPrefixOf s then .listItem ⟨'-' :: ' ' :: (emphL s).drop 2⟩
  else .body ⟨emphL s⟩

/-- One iteration of the `save_to_pdf` loop: the line is stripped, then
dispatched on its leading marker. -/
def renderLine (line : String) : Block := renderBlockOf (pyStrip line.data)

/-- The full `story` built by `save_to_pdf` from the document's lines. -/
def save_to_pdf_story (textLines : List String) : List Block :=
  textLines.map renderLine

/-- The renderer mapping exactly as the claim states it, with no
preliminary stripping of the line: a blank (all-whitespace) line is a
spacer; otherwise the raw line is dispatched on its literal prefix, and for
a list item the `"- "` prefix is stripped, the emphasis substitution applied,
and the marker re-prepended. -/
def renderLineClaim (line : String) : Block :=
  let s := line.data
  if s.all pyWs then .spacer
  else if ['#', ' '].isPrefixOf s then .h1 ⟨s.drop 2⟩
  else if ['#', '#', ' '].isPrefixOf s then .h2 ⟨s.drop 3⟩
  else if ['-', ' '].isPrefixOf s then .listItem ⟨'-' :: ' ' :: emphL (s.drop 2)⟩
  else .body ⟨emphL s⟩

/-! ## Issue-tracker classification (Jira_agent.py, lines 148–176) -/

/-- A normalized issue item as produced by `fetch_jira_issues`
(`key` = id, `summary` = title, `type` = issue-type name = kind). -/
structure JiraItem where
  key : String
  summary : String
  type : String
deriving DecidableEq, Repr

/-- The line `f"{key}: {summary}"` appended for each issue. -/
def renderIssue (i : JiraItem) : String := i.key ++ ": " ++ i.summary

/-- `categories.setdefault(issue_type, []).append(line)` on an
insertion-ordered association list. -/
def addIssue : List (String × List String) → String → String → List (String × List String)
  | [], k, line => [(k, [line])]
  | (k₀, v) :: rest, k, line =>
      if k₀ = k then (k₀, v ++ [line]) :: rest
      else (k₀, v) :: addIssue rest k line

/-- The classification loop of `classify_and_summarize_issues`. -/
def catsFold (items : List JiraItem) : List (String × List String) :=
  items.foldl (fun acc i => addIssue acc i.type (renderIssue i)) []

/-- Comparison used by `dict(sorted(categories.items()))`: tuples are
compared on their (pairwise-distinct) first components. -/
def catLE (p q : String × List String) : Prop := p.1 ≤ q.1

instance : DecidableRel catLE := fun p q => inferInstanceAs (Decidable (p.1 ≤ q.1))
instance : IsTotal (String × List String) catLE := ⟨fun a b => le_total a.1 b.1⟩
instance : IsTrans (String × List String) catLE := ⟨fun _ _ _ h₁ h₂ => le_trans h₁ h₂⟩

/-- The `categories` mapping returned by `classify_and_summarize_issues`:
classify by issue type, then sort the entries by key. -/
def classify_and_summarize_issues (items : List JiraItem) : List (String × List String) :=
  List.insertionSort catLE (catsFold items)

/-! ## Document composers (`format_release_notes`, both agents).
The composed document is modelled as its list of lines; the Python code
builds the same document as a single string joined with `"\n"`. -/

/-- `format_release_notes` of Jira_agent.py (lines 179–207). -/
def format_release_notes_jira (project version release_date : String)
    (cats : List (String × List String)) : List String :=
  ["# " ++ project ++ " Release " ++ version, "",
   "## Release Date", release_date, "",
   "## Summary",
   "- **Total Issues**: " ++ toString (cats.map (fun p => p.2.length)).sum]
  ++ cats.map (fun p => "- **" ++ p.1 ++ "**: " ++ toString p.2.length)
  ++ [""]
  ++ cats.flatMap (fun p =>
       if p.2.isEmpty then []
       else ("## " ++ p.1) :: (p.2.map (fun it => "- " ++ it) ++ [""]))

/-- The release-host categories with their lines as `String`s (the shape
serialized by `classify_and_summarize_release`). -/
def ghCategoriesStr (lines : List (List Char)) : List (String × List String) :=
  (ghCategories lines).map (fun p => (p.1, p.2.map (fun l => (⟨l⟩ : String))))

/-- `format_release_notes` of github_agent.py (lines 264–295). -/
def format_release_notes_gh (repo tag_name published_at : String)
    (cats : List (String × List String)) : List String :=
  ["# " ++ upperStr repo ++ " Release " ++ tag_name, "",
   "## Release Date", published_at, "",
   "## Summary",
   "- **Total Items**: " ++ toString (cats.map (fun p => p.2.length)).sum]
  ++ cats.map (fun p => "- **" ++ p.1 ++ "**: " ++ toString p.2.length)
  ++ [""]
  ++ cats.flatMap (fun p =>
       if p.2.isEmpty then []
       else ("## " ++ p.1) :: (p.2.map (fun it => "- " ++ it) ++ [""]))

/-! ## Guardrail (`llama_guard_check`, guardrails.py lines 26–50 and
jira_mcp_server.py lines 21–67: both return
`response.content.strip().upper() == "SAFE"`). -/

/-- `llama_guard_check` as a function of the guard model's raw response
content. -/
def llama_guard_check (content : String) : Bool :=
  upperStr (pyStripStr content) == "SAFE"

/-- Outcome of the guarded MCP tools (`generate_release_notes`,
`generate_github_release_notes` in jira_mcp_server.py). -/
inductive GuardedResult (α : Type) where
  | policyViolation (msg : String)
  | allowed (r : α)
deriving DecidableEq, Repr

/-- The guard gate of the MCP tools: run the pipeline only when the guard
response passes `llama_guard_check`. -/
def guarded_generate {α : Type} (guardResponse : String) (run : α) : GuardedResult α :=
  if llama_guard_check guardResponse then .allowed run
  else .policyViolation "Your request violates usage policies. Please modify your input."

/-! ## Pipeline worlds and orchestrators -/

/-- Outcome dict of `generate_release_notes_from_query` (either agent),
together with the artifact handed to `save_to_pdf`:
`saved = (filename, document lines)` models the single blob write. -/
structure PipelineResult where
  reply : String
  pdf_name : Option String
  saved : Option (String × List String)
deriving DecidableEq, Repr

/-- One entry of the Jira versions-list payload. -/
structure JiraVersion where
  name : String
  releaseDate : Option String
deriving DecidableEq, Repr

/-- External effects of the Jira pipeline: the parsed intent the LLM
extraction yields (`none` = malformed / missing fields), and the two HTTP
fetches (`Except.error e` = a raised transport/HTTP exception with
message `e`, as produced by `raise_for_status` or a connection failure). -/
structure JiraWorld where
  extract : Option (String × String)
  versions : Except String (List JiraVersion)
  issues : Except String (List JiraItem)

/-- The record returned by `fetch_jira_version_info` (Jira_agent.py,
lines 119–145). -/
structure VersionInfo where
  release_date : String
  version : String
  project : String
deriving DecidableEq, Repr

/-- `fetch_jira_version_info`: fetch the version list, linear-scan for an
exact name match; a missing match or missing `releaseDate` yields
`"Unknown"`; a raised exception yields the `"Error: ..."` string. -/
def fetch_jira_version_info (w : JiraWorld) (project version : String) :
    Except String VersionInfo :=
  match w.versions with
  | .error e => .error ("Error: " ++ e)
  | .ok vs =>
      match vs.find? (fun v => v.name == version) with
      | some v => .ok ⟨v.releaseDate.getD "Unknown", version, project⟩
      | none => .ok ⟨"Unknown", version, project⟩

/-- `fetch_jira_issues` (Jira_agent.py, lines 84–116): the world provides
the already-normalized items of a successful fetch, or the exception
message of a failed one. -/
def fetch_jira_issues (w : JiraWorld) : Except String (List JiraItem) :=
  match w.issues with
  | .error e => .error ("Error: " ++ e)
  | .ok items => .ok items

/-- `generate_release_notes_from_query` of Jira_agent.py (lines 259–306).
The classify and format stages cannot fail on structured input (their
`except` branches fire only on malformed JSON), so their error checks are
not reachable in the model. -/
def jira_generate (w : JiraWorld) : PipelineResult :=
  match w.extract with
  | none => ⟨"Please provide project and version. Example: ZOOKEEPER 3.9.0", none, none⟩
  | some (p, v) =>
      let project := upperStr (pyStripStr p)
      let version := pyStripStr v
      match fetch_jira_version_info w project version with
      | .error e => ⟨"Error fetching version info: " ++ e, none, none⟩
      | .ok vinfo =>
          match fetch_jira_issues w with
          | .error e => ⟨"Error fetching issues: " ++ e, none, none⟩
          | .ok items =>
              let cats := classify_and_summarize_issues items
              let text := format_release_notes_jira project version vinfo.release_date cats
              let pdf_name := project ++ "_v" ++ version ++ "_release_notes.pdf"
              ⟨"Release notes generated.", some pdf_name, some (pdf_name, text)⟩

/-- Fields of one release payload from the release-host API (`None`-able
fields are `Option`; the code reads them with `.get` defaults). -/
structure ReleaseData where
  tag_name : Option String
  name : Option String
  published_at : Option String
  body : Option String
deriving DecidableEq, Repr

/-- Response of one release-by-tag request: success, a 404, or another
raised error. -/
inductive GhResp where
  | ok (d : ReleaseData)
  | notFound
  | err (msg : String)
deriving DecidableEq, Repr

/-- `version.startswith("v")`. -/
def startsWithV (s : String) : Bool := ['v'].isPrefixOf s.data

/-- External effects of the GitHub pipeline: the parsed intent, and the
release-by-tag endpoint as a function of the requested tag. -/
structure GithubWorld where
  extract : Option (String × String × String)
  releases : String → GhResp

/-- The record built by a successful `fetch_github_release`. -/
structure FetchedRelease where
  owner : String
  repo : String
  version : String
  tag_name : String
  name : String
  published_at : String
  body : String
deriving DecidableEq, Repr

/-- The `json.dumps` payload of `fetch_github_release`, with the `.get`
defaults of lines 123–131. -/
def releaseOf (owner repo version : String) (d : ReleaseData) : FetchedRelease :=
  ⟨owner, repo, version, d.tag_name.getD version, d.name.getD "",
   d.published_at.getD "Unknown", d.body.getD ""⟩

/-- `fetch_github_release` (github_agent.py, lines 93–134): primary lookup
by exact tag; on a 404, one retry with the `v`-prefixed tag when the
version does not already start with `v`; any remaining failure becomes an
`"Error: ..."` string (the message of the raised exception). -/
def fetch_github_release (w : GithubWorld) (owner repo version : String) :
    Except String FetchedRelease :=
  match w.releases version with
  | .ok d => .ok (releaseOf owner repo version d)
  | .err m => .error ("Error: " ++ m)
  | .notFound =>
      if startsWithV version then .error "Error: 404 Not Found"
      else
        match w.releases ("v" ++ version) with
        | .ok d => .ok (releaseOf owner repo version d)
        | .err m => .error ("Error: " ++ m)
        | .notFound => .error "Error: 404 Not Found"

/-- The payload of the (effective, second) `classify_and_summarize_release`
definition of github_agent.py (lines 206–259). -/
structure SummarizedRelease where
  owner : String
  repo : String
  version : String
  tag_name : String
  published_at : String
  release_title : String
  categories : List (String × List String)
deriving DecidableEq, Repr

/-- `classify_and_summarize_release`: split, strip and clean the body
lines, classify them into the four fixed buckets, drop empty buckets. -/
def classify_and_summarize_release (rel : FetchedRelease) : SummarizedRelease :=
  ⟨rel.owner, rel.repo, rel.version, rel.tag_name, rel.published_at, rel.name,
   ghCategoriesStr (cleanedLines rel.body.data)⟩

/-- `repo.replace("/", "_")` of `generate_release_notes_from_query`. -/
def safeRepo (repo : String) : String :=
  ⟨repo.data.map (fun c => if c = '/' then '_' else c)⟩

/-- `generate_release_notes_from_query` of github_agent.py
(lines 345–379). -/
def github_generate (w : GithubWorld) : PipelineResult :=
  match w.extract with
  | none => ⟨"Please provide owner/repo and version. Example: apache/zookeeper 3.9.0", none, none⟩
  | some (o, r, v) =>
      let owner := pyStripStr o
      let repo := pyStripStr r
      let version := pyStripStr v
      match fetch_github_release w owner repo version with
      | .error e => ⟨"Error fetching GitHub release: " ++ e, none, none⟩
      | .ok rel =>
          let summarized := classify_and_summarize_release rel
          let text := format_release_notes_gh repo summarized.tag_name
            summarized.published_at summarized.categories
          let pdf_name := owner ++ "_" ++ safeRepo repo ++ "_v" ++ version ++ "_release_notes.pdf"
          ⟨"GitHub release notes generated.", some pdf_name, some (pdf_name, text)⟩

/-! ## Auxiliary definitions used by the statements and proofs -/

/-- Whether the regex `^[\*\-\+]\s*` matches non-trivially. -/
def startsWithBullet (l : List Char) : Bool :=
  match l with
  | [] => false
  | c :: _ => c = '*' || c = '-' || c = '+'

/-- No two adjacent whitespace characters. -/
def NoAdjWs (l : List Char) : Prop :=
  l.Chain' (fun a b => ¬(pyWs a = true ∧ pyWs b = true))

/-- Every whitespace character is a plain space. -/
def WsIsSpace (l : List Char) : Prop :=
  ∀ c ∈ l, pyWs c = true → c = ' '

/-- The specification's description of the keyword test: a case-insensitive
substring test. -/
def hasKeywordCI (hay needle : List Char) : Bool :=
  containsSub (hay.map Char.toLower) (needle.map Char.toLower)

/-- The classification rule exactly as the specification words it:
first-match, case-insensitive substring test in the fixed precedence order
fix/bug → Bug Fixes, feature/add/new → Features,
improve/update/enhance → Improvements, else Others. -/
def classifyLineSpec (ln : List Char) : Category :=
  if hasKeywordCI ln "fix".data || hasKeywordCI ln "bug".data then .bugFixes
  else if hasKeywordCI ln "feature".data || hasKeywordCI ln "add".data ||
      hasKeywordCI ln "new".data then .features
  else if hasKeywordCI ln "improve".data || hasKeywordCI ln "update".data ||
      hasKeywordCI ln "enhance".data then .improvements
  else .others

/-- Association-list lookup on the categories mapping. -/
def lookupA : List (String × List String) → String → Option (List String)
  | [], _ => none
  | (k₀, v) :: rest, k => if k₀ = k then some v else lookupA rest k

/-- The lines the issue-tracker classifier should put under kind `k`:
the rendered lines of the items of that kind, in input order. -/
def bucketSpecJ (items : List JiraItem) (k : String) : List String :=
  (items.filter (fun i => i.type == k)).map renderIssue

/-- Concrete world for exercising the Jira pipeline where the version list
has no entry matching the requested version. -/
def jiraWorldNoVersion : JiraWorld :=
  ⟨some ("zookeeper", "3.9.0"),
   .ok [⟨"3.8.0", some "2023-01-01"⟩],
   .ok [⟨"ZOOKEEPER-1", "Fix quorum loss", "Bug"⟩]⟩

/-- Concrete world for exercising the Jira pipeline where the issue fetch
raises (e.g. a 500 status turned into an exception by
`raise_for_status`). -/
def jiraWorldIssuesDown : JiraWorld :=
  ⟨some ("zookeeper", "3.9.0"),
   .ok [⟨"3.9.0", some "2023-10-09"⟩],
   .error "500 Server Error"⟩

/-- Concrete world for exercising the GitHub tag fallback: `3.9.0` is
unknown, `v3.9.0` exists. -/
def ghWorldFallback : GithubWorld :=
  ⟨some ("apache", "zookeeper", "3.9.0"),
   fun tag =>
     if tag = "v3.9.0" then
       .ok ⟨some "v3.9.0", some "ZooKeeper 3.9.0", some "2023-10-09", some "* Fix: new watcher"⟩
     else .notFound⟩

/-! ## General helper lemmas -/

theorem strExt {a b : String} (h : a.data = b.data) : a = b := by
  cases a; cases b; exact congrArg String.mk h

theorem strAppend_assoc (s t u : String) : s ++ t ++ u = s ++ (t ++ u) := by
  apply strExt
  simp [String.data_append]

theorem dropWhile_idem (p : Char → Bool) (l : List Char) :
    (l.dropWhile p).dropWhile p = l.dropWhile p := by
  induction l with
  | nil => rfl
  | cons c t ih => cases h : p c <;> simp [List.dropWhile_cons, h, ih]

theorem dropWhile_head_false (p : Char → Bool) :
    ∀ {l : List Char} {c : Char} {r : List Char},
      l.dropWhile p = c :: r → p c = false := by
  intro l
  induction l with
  | nil => intro c r h; simp at h
  | cons a t ih =>
    intro c r h
    cases hp : p a
    · rw [List.dropWhile_cons, hp] at h
      simp at h
      exact h.1 ▸ hp
    · rw [List.dropWhile_cons, hp] at h
      simp at h
      exact ih h

theorem dropWhile_eq_self_of_head (p : Char → Bool) {c : Char} {r : List Char}
    (hc : p c = false) : (c :: r).dropWhile p = c :: r := by
  simp [List.dropWhile_cons, hc]

theorem dropWhile_fix_of_isPre (p : Char → Bool) {l l' : List Char}
    (hl : l.dropWhile p = l) (hpre : l' <+: l) : l'.dropWhile p = l' := by
  cases l' with
  | nil => rfl
  | cons c r =>
    obtain ⟨t, ht⟩ := hpre
    have hc : p c = false := by
      rw [← ht] at hl
      cases hpc : p c
      · rfl
      · rw [List.cons_append] at hl
        simp only [List.dropWhile_cons, hpc, if_pos] at hl
        have hlen := (List.dropWhile_sublist p (l := r ++ t)).length_le
        rw [hl] at hlen
        simp at hlen
    exact dropWhile_eq_self_of_head p hc

theorem stripTrail_isPre (l : List Char) : stripTrail l <+: l := by
  have h : (stripTrail l).reverse <:+ l.reverse := by
    have := (List.dropWhile_suffix pyWs : l.reverse.dropWhile pyWs <:+ l.reverse)
    simpa [stripTrail] using this
  exact List.reverse_suffix.mp h

theorem stripLead_isSuf (l : List Char) : stripLead l <:+ l :=
  List.dropWhile_suffix pyWs

theorem stripLead_fix (l : List Char) : stripLead (stripLead l) = stripLead l :=
  dropWhile_idem pyWs l

theorem stripTrail_fix (l : List Char) : stripTrail (stripTrail l) = stripTrail l := by
  unfold stripTrail
  rw [List.reverse_reverse, dropWhile_idem]

theorem pyStrip_idem (l : List Char) : pyStrip (pyStrip l) = pyStrip l := by
  unfold pyStrip
  have h1 : stripLead (stripTrail (stripLead l)) = stripTrail (stripLead l) :=
    dropWhile_fix_of_isPre pyWs (stripLead_fix l) (stripTrail_isPre (stripLead l))
  rw [h1, stripTrail_fix]

theorem pyStrip_head_false {l : List Char} {c : Char} {r : List Char}
    (h : pyStrip l = c :: r) : pyWs c = false := by
  obtain ⟨t, ht⟩ := stripTrail_isPre (stripLead l)
  rw [show pyStrip l = stripTrail (stripLead l) from rfl] at h
  rw [h] at ht
  have hlead : stripLead l = c :: (r ++ t) := by rw [← ht]; simp
  exact dropWhile_head_false pyWs hlead

theorem mem_stripLead {c : Char} {l : List Char} (h : c ∈ stripLead l) : c ∈ l := by
  obtain ⟨s, hs⟩ := stripLead_isSuf l
  rw [← hs]
  exact List.mem_append_right s h

theorem mem_stripTrail {c : Char} {l : List Char} (h : c ∈ stripTrail l) : c ∈ l := by
  obtain ⟨t, ht⟩ := stripTrail_isPre l
  rw [← ht]
  exact List.mem_append_left t h

theorem mem_pyStrip {c : Char} {l : List Char} (h : c ∈ pyStrip l) : c ∈ l :=
  mem_stripLead (mem_stripTrail h)

theorem noAdjWs_dropWhile (p : Char → Bool) {l : List Char} (h : NoAdjWs l) :
    NoAdjWs (l.dropWhile p) :=
  List.Chain'.suffix h (List.dropWhile_suffix p)

theorem noAdjWs_reverse {l : List Char} (h : NoAdjWs l) : NoAdjWs l.reverse := by
  rw [NoAdjWs, List.chain'_reverse]
  exact h.imp (fun a b hab => fun ⟨h1, h2⟩ => hab ⟨h2, h1⟩)

theorem noAdjWs_stripTrail {l : List Char} (h : NoAdjWs l) : NoAdjWs (stripTrail l) := by
  unfold stripTrail
  exact noAdjWs_reverse (noAdjWs_dropWhile pyWs (noAdjWs_reverse h))

theorem noAdjWs_pyStrip {l : List Char} (h : NoAdjWs l) : NoAdjWs (pyStrip l) :=
  noAdjWs_stripTrail (noAdjWs_dropWhile pyWs h)

theorem wsIsSpace_pyStrip {l : List Char} (h : WsIsSpace l) : WsIsSpace (pyStrip l) :=
  fun c hc => h c (mem_pyStrip hc)

/-! ## Properties of whitespace collapsing -/

theorem collapseWs_wsIsSpace (l : List Char) : WsIsSpace (collapseWs l) := by
  induction l with
  | nil => intro c hc _; simp [collapseWs] at hc
  | cons a t ih =>
    cases t with
    | nil =>
      intro c hc hws
      cases ha : pyWs a <;> simp [collapseWs, ha] at hc
      · rw [hc] at hws; rw [hc]; exact absurd hws (by rw [ha]; simp)
      · exact hc
    | cons b r =>
      intro c hc hws
      cases ha : pyWs a <;> cases hb : pyWs b <;>
        simp [collapseWs, ha, hb] at hc
      · rcases hc with hc | hc
        · rw [hc] at hws; rw [ha] at hws; simp at hws
        · exact ih c hc hws
      · rcases hc with hc | hc
        · rw [hc] at hws; rw [ha] at hws; simp at hws
        · exact ih c hc hws
      · rcases hc with hc | hc
        · exact hc
        · exact ih c hc hws
      · exact ih c hc hws

theorem collapseWs_head_nonws {a : Char} (r : List Char) (ha : pyWs a = false) :
    ∃ t, collapseWs (a :: r) = a :: t := by
  cases r <;> simp [collapseWs, ha]

theorem collapseWs_noAdj (l : List Char) : NoAdjWs (collapseWs l) := by
  induction l with
  | nil => simp [collapseWs, NoAdjWs]
  | cons a t ih =>
    cases t with
    | nil =>
      cases ha : pyWs a <;> simp [collapseWs, ha, NoAdjWs]
    | cons b r =>
      cases ha : pyWs a
      · rw [show collapseWs (a :: b :: r) = a :: collapseWs (b :: r) by
          simp [collapseWs, ha]]
        rw [NoAdjWs, List.chain'_cons']
        refine ⟨fun y _ => ?_, ih⟩
        rintro ⟨h1, _⟩
        rw [ha] at h1
        simp at h1
      · cases hb : pyWs b
        · rw [show collapseWs (a :: b :: r) = ' ' :: collapseWs (b :: r) by
            simp [collapseWs, ha, hb]]
          rw [NoAdjWs, List.chain'_cons']
          refine ⟨fun y hy => ?_, ih⟩
          obtain ⟨t', ht'⟩ := collapseWs_head_nonws r hb
          rw [ht'] at hy
          simp at hy
          rintro ⟨_, h2⟩
          rw [← hy] at h2
          rw [hb] at h2
          simp at h2
        · rw [show collapseWs (a :: b :: r) = collapseWs (b :: r) by
            simp [collapseWs, ha, hb]]
          exact ih

theorem collapseWs_eq_self {l : List Char} (h1 : WsIsSpace l) (h2 : NoAdjWs l) :
    collapseWs l = l := by
  induction l with
  | nil => rfl
  | cons a t ih =>
    cases t with
    | nil =>
      cases ha : pyWs a <;> simp [collapseWs, ha]
      exact (h1 a (by simp) ha).symm
    | cons b r =>
      have hrel : ¬(pyWs a = true ∧ pyWs b = true) := (List.chain'_cons.mp h2).1
      have htail : NoAdjWs (b :: r) := (List.chain'_cons.mp h2).2
      have h1t : WsIsSpace (b :: r) := fun c hc => h1 c (List.mem_cons_of_mem a hc)
      cases ha : pyWs a
      · rw [show collapseWs (a :: b :: r) = a :: collapseWs (b :: r) by
          simp [collapseWs, ha]]
        rw [ih h1t htail]
      · have hb : pyWs b = false := by
          cases hbv : pyWs b
          · rfl
          · exact absurd ⟨ha, hbv⟩ hrel
        rw [show collapseWs (a :: b :: r) = ' ' :: collapseWs (b :: r) by
          simp [collapseWs, ha, hb]]
        rw [ih h1t htail, h1 a (by simp) ha]

theorem collapseWs_mem {c : Char} : ∀ {l : List Char},
    c ∈ collapseWs l → c ∈ l ∨ c = ' ' := by
  intro l
  induction l with
  | nil => intro hc; simp [collapseWs] at hc
  | cons a t ih =>
    cases t with
    | nil =>
      intro hc
      cases ha : pyWs a <;> simp [collapseWs, ha] at hc
      · left; simp [hc]
      · right; exact hc
    | cons b r =>
      intro hc
      cases ha : pyWs a <;> cases hb : pyWs b <;>
        simp [collapseWs, ha, hb] at hc
      all_goals (first
        | (rcases hc with hc | hc
           · left; simp [hc]
           · rcases ih hc with h | h
             · left; exact List.mem_cons_of_mem a h
             · right; exact h)
        | (rcases hc with hc | hc
           · right; exact hc
           · rcases ih hc with h | h
             · left; exact List.mem_cons_of_mem a h
             · right; exact h)
        | (rcases ih hc with h | h
           · left; exact List.mem_cons_of_mem a h
           · right; exact h))

theorem normalizeWs_idem (l : List Char) : normalizeWs (normalizeWs l) = normalizeWs l := by
  have hz1 : WsIsSpace (pyStrip (collapseWs l)) :=
    wsIsSpace_pyStrip (collapseWs_wsIsSpace l)
  have hz2 : NoAdjWs (pyStrip (collapseWs l)) :=
    noAdjWs_pyStrip (collapseWs_noAdj l)
  show pyStrip (collapseWs (pyStrip (collapseWs l))) = pyStrip (collapseWs l)
  rw [collapseWs_eq_self hz1 hz2, pyStrip_idem]

theorem mem_normalizeWs {c : Char} {l : List Char} (h : c ∈ normalizeWs l) :
    c ∈ l ∨ c = ' ' :=
  collapseWs_mem (mem_pyStrip h)

/-! ## Properties of the line cleaner -/

theorem mem_bulletStrip {c : Char} {l : List Char} (h : c ∈ bulletStrip l) : c ∈ l := by
  cases l with
  | nil => simp [bulletStrip] at h
  | cons a r =>
    by_cases hb : (a = '*' || a = '-' || a = '+') = true
    · rw [bulletStrip, if_pos hb] at h
      obtain ⟨s, hs⟩ := (List.dropWhile_suffix pyWs : r.dropWhile pyWs <:+ r)
      exact List.mem_cons_of_mem a (by rw [← hs]; exact List.mem_append_right s h)
    · rw [bulletStrip, if_neg hb] at h
      exact h

theorem bulletStrip_eq_self {l : List Char} (h : startsWithBullet l = false) :
    bulletStrip l = l := by
  cases l with
  | nil => rfl
  | cons a r =>
    rw [startsWithBullet] at h
    rw [bulletStrip, if_neg (by rw [h]; simp)]

theorem cleanL_no_backtick (l : List Char) : '`' ∉ cleanL l := by
  intro hmem
  rw [cleanL] at hmem
  rcases mem_normalizeWs hmem with h | h
  · have h2 := mem_bulletStrip h
    have h3 := List.of_mem_filter h2
    simp at h3
  · simp at h

theorem filter_backtick_eq_self {l : List Char} (h : '`' ∉ l) :
    l.filter (· ≠ '`') = l := by
  apply List.filter_eq_self.mpr
  intro a ha
  simp
  intro heq
  rw [heq] at ha
  exact h ha

/-- The amended idempotence: one cleaning pass is enough whenever its output
neither matches the markdown-link pattern nor begins with a bullet glyph. -/
theorem cleanL_idem {l : List Char}
    (hlink : linkSub (cleanL l) = cleanL l)
    (hbul : startsWithBullet (cleanL l) = false) :
    cleanL (cleanL l) = cleanL l := by
  conv_lhs => rw [cleanL, hlink, filter_backtick_eq_self (cleanL_no_backtick l),
    bulletStrip_eq_self hbul]
  rw [show cleanL l = normalizeWs (bulletStrip ((linkSub l).filter (· ≠ '`'))) from rfl,
    normalizeWs_idem]

/-! ## Properties of the emphasis substitution -/

theorem emphL_cons {c : Char} (hc : c ≠ '*') (l : List Char) :
    emphL (c :: l) = c :: emphL l := by
  show emphAux (c :: l).length (c :: l) = c :: emphAux l.length l
  rw [List.length_cons, emphAux, if_neg (by simp [hc])]

/-! ## Release-host classification lemmas -/

theorem ghStep_get (b : GhBuckets) (ln : List Char) (c : Category) :
    (ghStep b ln).get c = b.get c ++ (if classifyLine ln = c then [ln] else []) := by
  cases h : classifyLine ln <;> cases c <;> simp [ghStep, GhBuckets.get, h]

theorem ghFold_get : ∀ (lines : List (List Char)) (b : GhBuckets) (c : Category),
    (lines.foldl ghStep b).get c =
      b.get c ++ lines.filter (fun l => classifyLine l == c) := by
  intro lines
  induction lines with
  | nil => intro b c; simp
  | cons l ls ih =>
    intro b c
    rw [List.foldl_cons, ih, ghStep_get, List.filter_cons]
    by_cases h : classifyLine l = c
    · simp [h]
    · simp [h]

theorem ghBuckets_get (lines : List (List Char)) (c : Category) :
    (ghBuckets lines).get c = lines.filter (fun l => classifyLine l == c) := by
  rw [ghBuckets, ghFold_get]
  cases c <;> simp [GhBuckets.empty, GhBuckets.get]

theorem ghStep_total (b : GhBuckets) (ln : List Char) :
    (ghStep b ln).features.length + (ghStep b ln).bugFixes.length +
      (ghStep b ln).improvements.length + (ghStep b ln).others.length =
    b.features.length + b.bugFixes.length + b.improvements.length +
      b.others.length + 1 := by
  cases h : classifyLine ln <;> simp [ghStep, h] <;> omega

theorem ghFold_total : ∀ (lines : List (List Char)) (b : GhBuckets),
    (lines.foldl ghStep b).features.length + (lines.foldl ghStep b).bugFixes.length +
      (lines.foldl ghStep b).improvements.length + (lines.foldl ghStep b).others.length =
    b.features.length + b.bugFixes.length + b.improvements.length +
      b.others.length + lines.length := by
  intro lines
  induction lines with
  | nil => intro b; simp
  | cons l ls ih =>
    intro b
    rw [List.foldl_cons, ih, ghStep_total]
    simp
    omega

theorem sum_filter_nonempty {α : Type} (xs : List (String × List α)) :
    ((xs.filter (fun p => !p.2.isEmpty)).map (fun p => p.2.length)).sum =
      (xs.map (fun p => p.2.length)).sum := by
  induction xs with
  | nil => rfl
  | cons x rest ih =>
    rw [List.filter_cons]
    by_cases h : x.2.isEmpty
    · have hlen : x.2.length = 0 := by
        rw [List.isEmpty_iff] at h
        simp [h]
      simp [h, hlen, ih]
    · simp [h, ih]

/-! ## Issue-tracker classification lemmas -/

theorem keys_addIssue : ∀ (cats : List (String × List String)) (k line : String),
    (addIssue cats k line).map Prod.fst =
      if k ∈ cats.map Prod.fst then cats.map Prod.fst
      else cats.map Prod.fst ++ [k] := by
  intro cats
  induction cats with
  | nil => intro k line; simp [addIssue]
  | cons p rest ih =>
    intro k line
    obtain ⟨k₀, v⟩ := p
    by_cases h : k₀ = k
    · simp [addIssue, h]
    · rw [addIssue, if_neg h, List.map_cons, ih, List.map_cons]
      by_cases hm : k ∈ rest.map Prod.fst
      · rw [if_pos hm, if_pos (by simp [hm])]
      · rw [if_neg hm, if_neg (by simp [hm, Ne.symm h])]
        simp

theorem lookupA_addIssue_self : ∀ (cats : List (String × List String)) (k line : String),
    lookupA (addIssue cats k line) k = some ((lookupA cats k).getD [] ++ [line]) := by
  intro cats
  induction cats with
  | nil => intro k line; simp [addIssue, lookupA]
  | cons p rest ih =>
    intro k line
    obtain ⟨k₀, v⟩ := p
    by_cases h : k₀ = k
    · simp [addIssue, h, lookupA]
    · rw [addIssue, if_neg h, lookupA, if_neg h, ih, lookupA, if_neg h]

theorem lookupA_addIssue_ne : ∀ (cats : List (String × List String)) (k k' line : String),
    k' ≠ k → lookupA (addIssue cats k line) k' = lookupA cats k' := by
  intro cats
  induction cats with
  | nil => intro k k' line hne; simp [addIssue, lookupA, Ne.symm hne]
  | cons p rest ih =>
    intro k k' line hne
    obtain ⟨k₀, v⟩ := p
    by_cases h : k₀ = k
    · rw [addIssue, if_pos h, lookupA, lookupA]
      by_cases h' : k₀ = k'
      · exact absurd (h'.symm.trans h) hne
      · rw [if_neg h', if_neg h']
    · rw [addIssue, if_neg h, lookupA, lookupA]
      by_cases h' : k₀ = k'
      · rw [if_pos h', if_pos h']
      · rw [if_neg h', if_neg h', ih _ _ _ hne]

theorem mem_keys_iff_lookupA : ∀ (cats : List (String × List String)) (k : String),
    k ∈ cats.map Prod.fst ↔ lookupA cats k ≠ none := by
  intro cats
  induction cats with
  | nil => intro k; simp [lookupA]
  | cons p rest ih =>
    intro k
    obtain ⟨k₀, v⟩ := p
    by_cases h : k₀ = k
    · simp [lookupA, h]
    · rw [List.map_cons, lookupA, if_neg h]
      simp only [List.mem_cons]
      rw [ih]
      constructor
      · rintro (hk | hk)
        · exact absurd hk.symm h
        · exact hk
      · intro hk; exact Or.inr hk

theorem bucketSpecJ_append_one (items : List JiraItem) (i : JiraItem) (k : String) :
    bucketSpecJ (items ++ [i]) k =
      bucketSpecJ items k ++ (if i.type = k then [renderIssue i] else []) := by
  rw [bucketSpecJ, bucketSpecJ, List.filter_append, List.map_append]
  congr 1
  by_cases h : i.type = k <;> simp [h]

theorem catsFold_append_one (items : List JiraItem) (i : JiraItem) :
    catsFold (items ++ [i]) = addIssue (catsFold items) i.type (renderIssue i) := by
  rw [catsFold, catsFold, List.foldl_append]
  rfl

theorem catsFold_lookupA (items : List JiraItem) : ∀ k : String,
    lookupA (catsFold items) k =
      if (bucketSpecJ items k).isEmpty then none else some (bucketSpecJ items k) := by
  induction items using List.reverseRecOn with
  | nil => intro k; simp [catsFold, lookupA, bucketSpecJ]
  | append_singleton items i ih =>
    intro k
    rw [catsFold_append_one, bucketSpecJ_append_one]
    by_cases h : i.type = k
    · rw [h, lookupA_addIssue_self, ih, if_pos rfl]
      by_cases he : (bucketSpecJ items k).isEmpty
      · rw [if_pos he, if_neg (by simp)]
        rw [List.isEmpty_iff] at he
        simp [he]
      · rw [if_neg he, if_neg (by simp [List.isEmpty_iff])]
        simp
    · rw [lookupA_addIssue_ne _ _ _ _ (fun x => h x.symm), ih, if_neg h,
        List.append_nil]

theorem catsFold_keys_nodup (items : List JiraItem) :
    ((catsFold items).map Prod.fst).Nodup := by
  induction items using List.reverseRecOn with
  | nil => simp [catsFold]
  | append_singleton items i ih =>
    rw [catsFold_append_one, keys_addIssue]
    by_cases h : i.type ∈ (catsFold items).map Prod.fst
    · rw [if_pos h]; exact ih
    · rw [if_neg h]
      refine List.Nodup.append ih (List.nodup_singleton _) ?_
      intro a ha hb
      simp at hb
      subst hb
      exact h ha

theorem mem_pairs_iff_lookupA : ∀ (cats : List (String × List String)),
    (cats.map Prod.fst).Nodup → ∀ (k : String) (v : List String),
      ((k, v) ∈ cats ↔ lookupA cats k = some v) := by
  intro cats
  induction cats with
  | nil => intro _ k v; simp [lookupA]
  | cons p rest ih =>
    intro hnd k v
    obtain ⟨k₀, v₀⟩ := p
    rw [List.map_cons, List.nodup_cons] at hnd
    by_cases h : k₀ = k
    · subst h
      rw [lookupA, if_pos rfl]
      simp only [List.mem_cons]
      constructor
      · rintro (hp | hp)
        · rw [(Prod.mk.injEq _ _ _ _).mp hp.symm |>.2]
        · exact absurd (List.mem_map_of_mem Prod.fst hp) hnd.1
      · intro hp
        left
        simp at hp
        rw [hp]
    · rw [lookupA, if_neg h]
      simp only [List.mem_cons]
      rw [← ih hnd.2 k v]
      constructor
      · rintro (hp | hp)
        · exact absurd ((Prod.mk.injEq _ _ _ _).mp hp.symm).1 h
        · exact hp
      · intro hp; exact Or.inr hp

theorem addIssue_sum : ∀ (cats : List (String × List String)) (k line : String),
    ((addIssue cats k line).map (fun p => p.2.length)).sum =
      (cats.map (fun p => p.2.length)).sum + 1 := by
  intro cats
  induction cats with
  | nil => intro k line; simp [addIssue]
  | cons p rest ih =>
    intro k line
    obtain ⟨k₀, v⟩ := p
    by_cases h : k₀ = k
    · simp [addIssue, h]
      omega
    · rw [addIssue, if_neg h]
      simp [ih]
      omega

theorem catsFold_sum (items : List JiraItem) :
    ((catsFold items).map (fun p => p.2.length)).sum = items.length := by
  induction items using List.reverseRecOn with
  | nil => simp [catsFold]
  | append_singleton items i ih =>
    rw [catsFold_append_one, addIssue_sum, ih]
    simp

theorem jiraSorted_perm (items : List JiraItem) :
    List.Perm (classify_and_summarize_issues items) (catsFold items) :=
  List.perm_insertionSort catLE (catsFold items)

/-! ## Renderer lemmas -/

theorem isPrefixOf_pair {a b : Char} {s : List Char}
    (h : [a, b].isPrefixOf s = true) : ∃ t, s = a :: b :: t := by
  cases s with
  | nil => simp [List.isPrefixOf] at h
  | cons x xs =>
    cases xs with
    | nil => simp [List.isPrefixOf] at h
    | cons y ys =>
      simp [List.isPrefixOf] at h
      exact ⟨ys, by rw [h.1, h.2]⟩

theorem renderLine_eq_claim_of_stripped (line : String) :
    renderLine line = renderLineClaim (pyStripStr line) := by
  show renderBlockOf (pyStrip line.data) = renderLineClaim (pyStripStr line)
  rw [renderLineClaim]
  show renderBlockOf (pyStrip line.data) =
    (if (pyStrip line.data).all pyWs then Block.spacer
     else if ['#', ' '].isPrefixOf (pyStrip line.data) then
       .h1 ⟨(pyStrip line.data).drop 2⟩
     else if ['#', '#', ' '].isPrefixOf (pyStrip line.data) then
       .h2 ⟨(pyStrip line.data).drop 3⟩
     else if ['-', ' '].isPrefixOf (pyStrip line.data) then
       .listItem ⟨'-' :: ' ' :: emphL ((pyStrip line.data).drop 2)⟩
     else .body ⟨emphL (pyStrip line.data)⟩)
  cases hsp : pyStrip line.data with
  | nil => simp [renderBlockOf]
  | cons c r =>
    have hc : pyWs c = false := pyStrip_head_false hsp
    have hallP : ¬((c :: r).all pyWs = true) := by simp [hc]
    rw [if_neg hallP]
    unfold renderBlockOf
    rw [if_neg (by simp : ¬((c :: r).isEmpty = true))]
    by_cases h1 : ['#', ' '].isPrefixOf (c :: r) = true
    · rw [if_pos h1, if_pos h1]
    · rw [if_neg h1, if_neg h1]
      by_cases h2 : ['#', '#', ' '].isPrefixOf (c :: r) = true
      · rw [if_pos h2, if_pos h2]
      · rw [if_neg h2, if_neg h2]
        by_cases h3 : ['-', ' '].isPrefixOf (c :: r) = true
        · rw [if_pos h3, if_pos h3]
          obtain ⟨t, ht⟩ := isPrefixOf_pair h3
          rw [ht]
          rw [emphL_cons (by decide), emphL_cons (by decide)]
          simp
        · rw [if_neg h3, if_neg h3]

/-! ## Guardrail lemmas -/

theorem guard_true_iff_data (s : String) :
    llama_guard_check s = true ↔
      (pyStrip s.data).map Char.toUpper = "SAFE".data := by
  rw [llama_guard_check, beq_iff_eq]
  constructor
  · intro h
    exact congrArg String.data h
  · intro h
    exact strExt h

theorem pyWs_char_iff (c : Char) : pyWs c = true ↔
    c = ' ' ∨ c = '\t' ∨ c = '\n' ∨ c = '\r' ∨ c = '\x0b' ∨ c = '\x0c' := by
  simp [pyWs]
  tauto

theorem pyWs_toUpper {c : Char} (h : pyWs c = true) : c.toUpper = c := by
  rcases (pyWs_char_iff c).mp h with h' | h' | h' | h' | h' | h' <;> subst h' <;> decide

theorem safe_char_not_ws {c d : Char} (hd : d ∈ ("SAFE" : String).data)
    (h : c.toUpper = d) : pyWs c = false := by
  cases hws : pyWs c
  · rfl
  · rw [pyWs_toUpper hws] at h
    subst h
    revert hws
    have : c = 'S' ∨ c = 'A' ∨ c = 'F' ∨ c = 'E' := by
      simpa using hd
    rcases this with h' | h' | h' | h' <;> subst h' <;> decide

theorem dropWhile_append_all {p : Char → Bool} : ∀ {pre x : List Char},
    (∀ c ∈ pre, p c = true) → (pre ++ x).dropWhile p = x.dropWhile p := by
  intro pre
  induction pre with
  | nil => intro x _; rfl
  | cons a t ih =>
    intro x h
    rw [List.cons_append, List.dropWhile_cons, if_pos (h a (by simp))]
    exact ih (fun c hc => h c (by simp [hc]))

theorem pyStrip_decomp (l : List Char) :
    ∃ pre post, l = pre ++ pyStrip l ++ post ∧
      (∀ c ∈ pre, pyWs c = true) ∧ (∀ c ∈ post, pyWs c = true) := by
  refine ⟨l.takeWhile pyWs, ((stripLead l).reverse.takeWhile pyWs).reverse, ?_, ?_, ?_⟩
  · have h1 : l = l.takeWhile pyWs ++ stripLead l :=
      (List.takeWhile_append_dropWhile pyWs l).symm
    have h2 : stripLead l =
        pyStrip l ++ ((stripLead l).reverse.takeWhile pyWs).reverse := by
      have h3 : (stripLead l).reverse =
          (stripLead l).reverse.takeWhile pyWs ++ (stripLead l).reverse.dropWhile pyWs :=
        (List.takeWhile_append_dropWhile pyWs _).symm
      calc stripLead l = (stripLead l).reverse.reverse := by rw [List.reverse_reverse]
        _ = ((stripLead l).reverse.takeWhile pyWs ++
              (stripLead l).reverse.dropWhile pyWs).reverse := by rw [← h3]
        _ = ((stripLead l).reverse.dropWhile pyWs).reverse ++
              ((stripLead l).reverse.takeWhile pyWs).reverse := by
            rw [List.reverse_append]
        _ = pyStrip l ++ ((stripLead l).reverse.takeWhile pyWs).reverse := rfl
    rw [List.append_assoc, ← h2]
    exact h1
  · intro c hc
    exact List.mem_takeWhile_imp hc
  · intro c hc
    rw [List.mem_reverse] at hc
    exact List.mem_takeWhile_imp hc

theorem pyStrip_of_decomp {pre core post : List Char}
    (hpre : ∀ c ∈ pre, pyWs c = true) (hpost : ∀ c ∈ post, pyWs c = true)
    (hhead : ∀ c r, core = c :: r → pyWs c = false)
    (hlast : ∀ c r, core.reverse = c :: r → pyWs c = false) :
    pyStrip (pre ++ core ++ post) = core := by
  cases hcore : core with
  | nil =>
    subst hcore
    have h1 : stripLead (pre ++ [] ++ post) = [] := by
      unfold stripLead
      rw [List.append_nil, dropWhile_append_all hpre, List.dropWhile_eq_nil_iff]
      intro c hc
      rw [hpost c hc]
    show pyStrip (pre ++ [] ++ post) = []
    unfold pyStrip
    rw [h1]
    rfl
  | cons c r =>
    subst hcore
    have h1 : stripLead (pre ++ (c :: r) ++ post) = (c :: r) ++ post := by
      unfold stripLead
      rw [List.append_assoc, dropWhile_append_all hpre, List.cons_append,
        dropWhile_eq_self_of_head pyWs (hhead c r rfl)]
    have hrevx : ∃ d rr, (c :: r).reverse = d :: rr := by
      cases hx : (c :: r).reverse with
      | nil => exact absurd (congrArg List.length hx) (by simp)
      | cons d rr => exact ⟨d, rr, rfl⟩
    obtain ⟨d, rr, hdr⟩ := hrevx
    have hd : pyWs d = false := hlast d rr hdr
    show pyStrip (pre ++ (c :: r) ++ post) = c :: r
    unfold pyStrip
    rw [h1]
    unfold stripTrail
    rw [List.reverse_append, hdr,
      dropWhile_append_all (fun x hx => hpost x (List.mem_reverse.mp hx)),
      dropWhile_eq_self_of_head pyWs hd, ← hdr, List.reverse_reverse]

/-! ## Further small helpers -/

theorem isEmpty_of_length_eq {α β : Type} {x : List α} {y : List β}
    (h : x.length = y.length) : x.isEmpty = y.isEmpty := by
  cases x <;> cases y <;> simp_all

theorem keysFilterCongr : ∀ (xs ys : List (String × List (List Char))),
    xs.map Prod.fst = ys.map Prod.fst →
    xs.map (fun p => p.2.isEmpty) = ys.map (fun p => p.2.isEmpty) →
    (xs.filter (fun p => !p.2.isEmpty)).map Prod.fst =
      (ys.filter (fun p => !p.2.isEmpty)).map Prod.fst := by
  intro xs
  induction xs with
  | nil =>
    intro ys h1 _
    cases ys
    · rfl
    · simp at h1
  | cons x xs ih =>
    intro ys h1 h2
    cases ys with
    | nil => simp at h1
    | cons y ys' =>
      simp only [List.map_cons, List.cons.injEq] at h1 h2
      rw [List.filter_cons, List.filter_cons]
      cases he : x.2.isEmpty
      · rw [← h2.1, he]
        simp only [Bool.not_false, if_pos]
        rw [List.map_cons, List.map_cons, h1.1, ih ys' h1.2 h2.2]
      · rw [← h2.1, he]
        simp only [Bool.not_true, Bool.false_eq_true, if_false]
        exact ih ys' h1.2 h2.2

theorem flatMap_congr_mem {α β : Type} (l : List α) (f g : α → List β)
    (h : ∀ a ∈ l, f a = g a) : l.flatMap f = l.flatMap g := by
  induction l with
  | nil => rfl
  | cons a t ih =>
    simp only [List.flatMap_cons]
    rw [h a (by simp), ih (fun b hb => h b (by simp [hb]))]

end RelNotes

open RelNotes

/-! # The claims -/

/-- C1: for every input sequence — normalized issue items in issue-tracker
mode, cleaned non-empty body lines in release-host mode — the sum of
per-category line counts in the categorized result equals the length of
that input sequence: every item lands in exactly one category, none is
dropped, none is duplicated. -/
theorem claim_C1_sum_preserved :
    (∀ items : List JiraItem,
       ((classify_and_summarize_issues items).map (fun p => p.2.length)).sum =
         items.length) ∧
    (∀ rel : FetchedRelease,
       (((classify_and_summarize_release rel).categories).map
          (fun p => p.2.length)).sum =
         (cleanedLines rel.body.data).length) := by
  constructor
  · intro items
    have hperm := (jiraSorted_perm items).map (fun p => p.2.length)
    rw [hperm.sum_eq, catsFold_sum]
  · intro rel
    show ((ghCategoriesStr (cleanedLines rel.body.data)).map
      (fun p => p.2.length)).sum = (cleanedLines rel.body.data).length
    have h1 : ∀ L : List (List Char),
        ((ghCategoriesStr L).map (fun p => p.2.length)).sum =
          ((ghCategories L).map (fun p => p.2.length)).sum := by
      intro L
      rw [ghCategoriesStr, List.map_map]
      congr 1
      apply List.map_congr_left
      intro p _
      simp
    rw [h1, ghCategories, sum_filter_nonempty, List.map_map]
    have h2 := ghFold_total (cleanedLines rel.body.data) GhBuckets.empty
    simp only [ghOrder, List.map_cons, List.map_nil, Function.comp,
      GhBuckets.get, List.sum_cons, List.sum_nil, ghBuckets,
      GhBuckets.empty, List.length_nil] at h2 ⊢
    omega

/-- C3 fails as stated: cleaning `"- - item"` yields `"- item"`, and
cleaning that again strips the newly exposed bullet, yielding `"item"`. -/
theorem claim_C3_counterexample :
    clean_github_line (clean_github_line "- - item") ≠
      clean_github_line "- - item" := by decide

/-- C3 (amended): re-cleaning a cleaned line is a no-op provided the
cleaned line does not itself match the markdown-link pattern and does not
begin with a bullet glyph (`*`, `-`, `+`); without that proviso the claim
fails (see the counterexample). -/
theorem claim_C3_clean_idempotent (s : String)
    (hlink : linkSub (clean_github_line s).data = (clean_github_line s).data)
    (hbul : startsWithBullet (clean_github_line s).data = false) :
    clean_github_line (clean_github_line s) = clean_github_line s := by
  apply strExt
  show cleanL (cleanL s.data) = cleanL s.data
  exact cleanL_idem hlink hbul

theorem claim_C3_witness :
    clean_github_line (clean_github_line "* see [docs](http://x) `here`") =
      clean_github_line "* see [docs](http://x) `here`" :=
  claim_C3_clean_idempotent "* see [docs](http://x) `here`" (by decide) (by decide)

/-- C4: release-host classification of each cleaned line is a first-match,
case-insensitive substring test in the fixed precedence order
fix/bug → Bug Fixes, feature/add/new → Features,
improve/update/enhance → Improvements, else Others; a line containing both
"fix" and "feature" goes to Bug Fixes and to no other category. -/
theorem claim_C4_keyword_precedence :
    (∀ ln : List Char, classifyLine ln = classifyLineSpec ln) ∧
    (∀ ln : List Char, hasKeywordCI ln "fix".data = true →
       hasKeywordCI ln "feature".data = true → classifyLine ln = .bugFixes) ∧
    (∀ (lines : List (List Char)) (c : Category),
       (ghBuckets lines).get c = lines.filter (fun l => classifyLine l == c)) ∧
    (∀ (lines : List (List Char)) (ln : List Char),
       hasKeywordCI ln "fix".data = true → hasKeywordCI ln "feature".data = true →
       ((ln ∈ (ghBuckets lines).get .bugFixes ↔ ln ∈ lines) ∧
        ∀ c : Category, c ≠ .bugFixes → ln ∉ (ghBuckets lines).get c)) := by
  have hbf : ∀ ln : List Char, hasKeywordCI ln "fix".data = true →
      classifyLine ln = .bugFixes := by
    intro ln h
    rw [hasKeywordCI, show "fix".data.map Char.toLower = "fix".data from by decide] at h
    simp [classifyLine, h]
  refine ⟨?_, ?_, fun lines c => ghBuckets_get lines c, ?_⟩
  · intro ln
    rw [classifyLine, classifyLineSpec, hasKeywordCI, hasKeywordCI, hasKeywordCI,
      hasKeywordCI, hasKeywordCI, hasKeywordCI, hasKeywordCI, hasKeywordCI,
      show "fix".data.map Char.toLower = "fix".data from by decide,
      show "bug".data.map Char.toLower = "bug".data from by decide,
      show "feature".data.map Char.toLower = "feature".data from by decide,
      show "add".data.map Char.toLower = "add".data from by decide,
      show "new".data.map Char.toLower = "new".data from by decide,
      show "improve".data.map Char.toLower = "improve".data from by decide,
      show "update".data.map Char.toLower = "update".data from by decide,
      show "enhance".data.map Char.toLower = "enhance".data from by decide]
  · intro ln h _
    exact hbf ln h
  · intro lines ln h1 h2
    have hcls : classifyLine ln = .bugFixes := hbf ln h1
    constructor
    · rw [ghBuckets_get]
      simp [List.mem_filter, hcls]
    · intro c hc
      rw [ghBuckets_get]
      intro hmem
      rw [List.mem_filter] at hmem
      have := hmem.2
      rw [hcls] at this
      simp at this
      exact hc this.symm

theorem claim_C4_witness :
    classifyLine "Fix: add a new feature flag".data = .bugFixes :=
  claim_C4_keyword_precedence.2.1 "Fix: add a new feature flag".data
    (by decide) (by decide)

/-- C5: the non-empty categories of the release-host result appear in the
fixed display order Features, Bug Fixes, Improvements, Others (a sublist of
that fixed order), empty categories are omitted, the set of displayed
category names does not depend on the order of the input lines, and the
composed document lists one section per category in exactly that order. -/
theorem claim_C5_display_order :
    (∀ body : List Char,
       List.Sublist ((ghCategories (cleanedLines body)).map Prod.fst)
         ["Features", "Bug Fixes", "Improvements", "Others"]) ∧
    (∀ body : List Char, ∀ p ∈ ghCategories (cleanedLines body), p.2 ≠ []) ∧
    (∀ L₁ L₂ : List (List Char), List.Perm L₁ L₂ →
       (ghCategories L₁).map Prod.fst = (ghCategories L₂).map Prod.fst) ∧
    (∀ (repo tag date : String) (L : List (List Char)),
       format_release_notes_gh repo tag date (ghCategoriesStr L) =
         ["# " ++ upperStr repo ++ " Release " ++ tag, "",
          "## Release Date", date, "", "## Summary",
          "- **Total Items**: " ++
            toString ((ghCategoriesStr L).map (fun p => p.2.length)).sum] ++
         (ghCategoriesStr L).map
           (fun p => "- **" ++ p.1 ++ "**: " ++ toString p.2.length) ++
         [""] ++
         (ghCategoriesStr L).flatMap (fun p =>
           ("## " ++ p.1) :: (p.2.map (fun it => "- " ++ it) ++ [""]))) := by
  have hne : ∀ (L : List (List Char)) (p : String × List (List Char)),
      p ∈ ghCategories L → p.2 ≠ [] := by
    intro L p hp
    rw [ghCategories] at hp
    have := List.of_mem_filter hp
    simpa using this
  refine ⟨?_, fun body p hp => hne _ p hp, ?_, ?_⟩
  · intro body
    have h := (List.filter_sublist (p := fun p => !p.2.isEmpty)
      (ghOrder.map (fun c => (c.name, (ghBuckets (cleanedLines body)).get c)))).map
      Prod.fst
    exact h
  · intro L₁ L₂ hperm
    have hbe : ∀ c, ((ghBuckets L₁).get c).isEmpty = ((ghBuckets L₂).get c).isEmpty := by
      intro c
      rw [ghBuckets_get, ghBuckets_get]
      exact isEmpty_of_length_eq (hperm.filter (fun l => classifyLine l == c)).length_eq
    rw [ghCategories, ghCategories]
    apply keysFilterCongr
    · rw [List.map_map, List.map_map]
      apply List.map_congr_left
      intro c _
      rfl
    · rw [List.map_map, List.map_map]
      apply List.map_congr_left
      intro c _
      exact hbe c
  · intro repo tag date L
    rw [format_release_notes_gh]
    have hfm : (ghCategoriesStr L).flatMap (fun p =>
        if p.2.isEmpty then []
        else ("## " ++ p.1) :: (p.2.map (fun it => "- " ++ it) ++ [""])) =
      (ghCategoriesStr L).flatMap (fun p =>
        ("## " ++ p.1) :: (p.2.map (fun it => "- " ++ it) ++ [""])) := by
      apply flatMap_congr_mem
      intro p hp
      rw [ghCategoriesStr, List.mem_map] at hp
      obtain ⟨q, hq, hpq⟩ := hp
      have hq2 : q.2 ≠ [] := hne L q hq
      have hp2 : p.2 ≠ [] := by
        rw [← hpq]
        simpa using hq2
      have hpe : ¬(p.2.isEmpty = true) := by
        simpa [List.isEmpty_iff] using hp2
      rw [if_neg hpe]
    rw [hfm]

theorem claim_C5_witness :
    (ghCategories ["fix a".data, "new b".data]).map Prod.fst =
      (ghCategories ["new b".data, "fix a".data]).map Prod.fst :=
  claim_C5_display_order.2.2.1 ["fix a".data, "new b".data]
    ["new b".data, "fix a".data] (by decide)

/-- The issue-type bucket for `k` is empty exactly when no input item has
kind `k`. -/
theorem bucketSpecJ_empty_iff (items : List JiraItem) (k : String) :
    bucketSpecJ items k = [] ↔ k ∉ items.map JiraItem.type := by
  rw [bucketSpecJ, List.map_eq_nil_iff, List.filter_eq_nil_iff]
  constructor
  · intro h hk
    rw [List.mem_map] at hk
    obtain ⟨i, hi, hik⟩ := hk
    have hne : ¬(i.type == k) = true := h i hi
    rw [beq_iff_eq] at hne
    exact hne hik
  · intro h i hi
    simp only [beq_iff_eq]
    intro hik
    exact h (List.mem_map.mpr ⟨i, hi, hik⟩)

/-- C6: for every sequence of issue-tracker items the category keys are
exactly the distinct kind values present in the input, in lexicographic
order, and each category's lines are the `"{id}: {title}"` renderings of
its items in input order. -/
theorem claim_C6_issue_categories (items : List JiraItem) :
    ((classify_and_summarize_issues items).map Prod.fst).Sorted (· ≤ ·) ∧
    ((classify_and_summarize_issues items).map Prod.fst).Nodup ∧
    (∀ k, k ∈ (classify_and_summarize_issues items).map Prod.fst ↔
       k ∈ items.map JiraItem.type) ∧
    (∀ k v, (k, v) ∈ classify_and_summarize_issues items →
       v = (items.filter (fun i => i.type == k)).map renderIssue) := by
  have hperm := jiraSorted_perm items
  have hkeys : List.Perm ((classify_and_summarize_issues items).map Prod.fst)
      ((catsFold items).map Prod.fst) := hperm.map Prod.fst
  have hnodup0 := catsFold_keys_nodup items
  refine ⟨?_, ?_, ?_, ?_⟩
  · have hs := List.sorted_insertionSort catLE (catsFold items)
    exact List.Pairwise.map Prod.fst (fun a b h => h) hs
  · exact hkeys.nodup_iff.mpr hnodup0
  · intro k
    rw [hkeys.mem_iff, mem_keys_iff_lookupA, catsFold_lookupA]
    by_cases hb : (bucketSpecJ items k).isEmpty
    · rw [if_pos hb]
      have hk := (bucketSpecJ_empty_iff items k).mp (List.isEmpty_iff.mp hb)
      simp [hk]
    · rw [if_neg hb]
      have hne2 : bucketSpecJ items k ≠ [] := by
        simpa [List.isEmpty_iff] using hb
      have hk : k ∈ items.map JiraItem.type := by
        by_contra hkn
        exact hne2 ((bucketSpecJ_empty_iff items k).mpr hkn)
      simp [hk]
  · intro k v hkv
    have hkv' : (k, v) ∈ catsFold items := hperm.mem_iff.mp hkv
    have hlk : lookupA (catsFold items) k = some v :=
      (mem_pairs_iff_lookupA (catsFold items) hnodup0 k v).mp hkv'
    rw [catsFold_lookupA] at hlk
    by_cases hb : (bucketSpecJ items k).isEmpty
    · rw [if_pos hb] at hlk; cases hlk
    · rw [if_neg hb] at hlk
      exact (Option.some.inj hlk).symm

theorem claim_C6_witness :
    (["ZOOKEEPER-1: Fix quorum loss"] : List String) =
      (([⟨"ZOOKEEPER-1", "Fix quorum loss", "Bug"⟩] : List JiraItem).filter
        (fun i => i.type == "Bug")).map renderIssue :=
  (claim_C6_issue_categories [⟨"ZOOKEEPER-1", "Fix quorum loss", "Bug"⟩]).2.2.2
    "Bug" ["ZOOKEEPER-1: Fix quorum loss"] (by decide)

/-- C7 fails as stated: the renderer strips each line before dispatching on
its prefix, so `"  # Title"` renders as a Heading-1, not as body text as the
literal by-prefix mapping would dictate. -/
theorem claim_C7_counterexample :
    renderLine "  # Title" ≠ renderLineClaim "  # Title" := by decide

/-- C7 (amended): after stripping surrounding whitespace from the line, the
renderer maps each line to exactly one styled block by prefix exactly as the
claim describes (blank → spacer with no text, `"# "` → Heading-1 with prefix
stripped, `"## "` → Heading-2, `"- "` → list item with the literal `"- "`
marker re-prepended after emphasis substitution, otherwise body text with
emphasis substitution). -/
theorem claim_C7_renderer_blocks :
    (∀ line : String, renderLine line = renderLineClaim (pyStripStr line)) ∧
    (∀ doc : List String, (save_to_pdf_story doc).length = doc.length) :=
  ⟨renderLine_eq_claim_of_stripped, fun doc => by simp [save_to_pdf_story]⟩

/-- C2: when the release-host lookup 404s for the requested tag and the
single fallback retry with the `v`-prefixed tag succeeds, the tag name of
the fetched release is the fallback-resolved tag, and the generated
artifact filename embeds exactly that tag (not the originally requested
version string). -/
theorem claim_C2_fallback_tag (w : GithubWorld) (o r v : String)
    (hx : w.extract = some (o, r, v))
    (hv : startsWithV (pyStripStr v) = false)
    (h404 : w.releases (pyStripStr v) = .notFound)
    (d : ReleaseData)
    (hfb : w.releases ("v" ++ pyStripStr v) = .ok d)
    (htag : d.tag_name = some ("v" ++ pyStripStr v)) :
    ∃ rel, fetch_github_release w (pyStripStr o) (pyStripStr r) (pyStripStr v) =
        .ok rel ∧
      rel.tag_name = "v" ++ pyStripStr v ∧
      (github_generate w).pdf_name = some (pyStripStr o ++ "_" ++
        safeRepo (pyStripStr r) ++ "_" ++ rel.tag_name ++ "_release_notes.pdf") ∧
      rel.tag_name ≠ pyStripStr v := by
  have hfetch : fetch_github_release w (pyStripStr o) (pyStripStr r) (pyStripStr v) =
      .ok (releaseOf (pyStripStr o) (pyStripStr r) (pyStripStr v) d) := by
    simp [fetch_github_release, h404, hfb, hv]
  have htagv : (releaseOf (pyStripStr o) (pyStripStr r) (pyStripStr v) d).tag_name =
      "v" ++ pyStripStr v := by
    simp [releaseOf, htag]
  refine ⟨_, hfetch, htagv, ?_, ?_⟩
  · have hgen : (github_generate w).pdf_name = some (pyStripStr o ++ "_" ++
        safeRepo (pyStripStr r) ++ "_v" ++ pyStripStr v ++ "_release_notes.pdf") := by
      simp [github_generate, hx, hfetch]
    rw [hgen, htagv]
    congr 1
    apply strExt
    simp [String.data_append]
  · rw [htagv]
    intro heq
    have hlen := congrArg String.length heq
    rw [String.length_append] at hlen
    simp at hlen
    exact absurd hlen (by decide)

theorem claim_C2_witness :
    ∃ rel, fetch_github_release ghWorldFallback "apache" "zookeeper" "3.9.0" =
        .ok rel ∧
      rel.tag_name = "v" ++ "3.9.0" ∧
      (github_generate ghWorldFallback).pdf_name = some ("apache" ++ "_" ++
        safeRepo "zookeeper" ++ "_" ++ rel.tag_name ++ "_release_notes.pdf") ∧
      rel.tag_name ≠ "3.9.0" :=
  claim_C2_fallback_tag ghWorldFallback "apache" "zookeeper" "3.9.0"
    rfl (by decide) (by decide) _ rfl rfl

/-- C8: when the version list has no entry whose name matches the requested
version exactly, the metadata result carries release date "Unknown" rather
than an error, the pipeline still succeeds, and the composed document shows
the "Unknown" date (its fourth line, under the "## Release Date" heading,
is "Unknown"). -/
theorem claim_C8_unknown_release_date (w : JiraWorld) (p v : String)
    (vs : List JiraVersion) (items : List JiraItem)
    (hx : w.extract = some (p, v))
    (hvs : w.versions = .ok vs)
    (hnone : ∀ ver ∈ vs, ver.name ≠ pyStripStr v)
    (hitems : w.issues = .ok items) :
    fetch_jira_version_info w (upperStr (pyStripStr p)) (pyStripStr v) =
      .ok ⟨"Unknown", pyStripStr v, upperStr (pyStripStr p)⟩ ∧
    (jira_generate w).reply = "Release notes generated." ∧
    (jira_generate w).pdf_name =
      some (upperStr (pyStripStr p) ++ "_v" ++ pyStripStr v ++ "_release_notes.pdf") ∧
    (jira_generate w).saved =
      some (upperStr (pyStripStr p) ++ "_v" ++ pyStripStr v ++ "_release_notes.pdf",
        format_release_notes_jira (upperStr (pyStripStr p)) (pyStripStr v) "Unknown"
          (classify_and_summarize_issues items)) ∧
    (∀ cats, (format_release_notes_jira (upperStr (pyStripStr p)) (pyStripStr v)
        "Unknown" cats).take 4 =
      ["# " ++ upperStr (pyStripStr p) ++ " Release " ++ pyStripStr v, "",
       "## Release Date", "Unknown"]) := by
  have hf : vs.find? (fun ver => ver.name == pyStripStr v) = none := by
    rw [List.find?_eq_none]
    intro x hx2
    simp only [beq_iff_eq]
    exact hnone x hx2
  have hvinfo : fetch_jira_version_info w (upperStr (pyStripStr p)) (pyStripStr v) =
      .ok ⟨"Unknown", pyStripStr v, upperStr (pyStripStr p)⟩ := by
    simp [fetch_jira_version_info, hvs, hf]
  have hgen : jira_generate w = ⟨"Release notes generated.",
      some (upperStr (pyStripStr p) ++ "_v" ++ pyStripStr v ++ "_release_notes.pdf"),
      some (upperStr (pyStripStr p) ++ "_v" ++ pyStripStr v ++ "_release_notes.pdf",
        format_release_notes_jira (upperStr (pyStripStr p)) (pyStripStr v) "Unknown"
          (classify_and_summarize_issues items))⟩ := by
    simp [jira_generate, hx, fetch_jira_version_info, hvs, hf, fetch_jira_issues,
      hitems]
  refine ⟨hvinfo, ?_, ?_, ?_, fun cats => rfl⟩ <;> rw [hgen]

theorem claim_C8_witness :
    fetch_jira_version_info jiraWorldNoVersion (upperStr (pyStripStr "zookeeper"))
        (pyStripStr "3.9.0") =
      .ok ⟨"Unknown", pyStripStr "3.9.0", upperStr (pyStripStr "zookeeper")⟩ ∧
    (jira_generate jiraWorldNoVersion).reply = "Release notes generated." ∧
    (jira_generate jiraWorldNoVersion).pdf_name =
      some (upperStr (pyStripStr "zookeeper") ++ "_v" ++ pyStripStr "3.9.0" ++
        "_release_notes.pdf") ∧
    (jira_generate jiraWorldNoVersion).saved =
      some (upperStr (pyStripStr "zookeeper") ++ "_v" ++ pyStripStr "3.9.0" ++
        "_release_notes.pdf",
        format_release_notes_jira (upperStr (pyStripStr "zookeeper"))
          (pyStripStr "3.9.0") "Unknown"
          (classify_and_summarize_issues
            [⟨"ZOOKEEPER-1", "Fix quorum loss", "Bug"⟩])) ∧
    (∀ cats, (format_release_notes_jira (upperStr (pyStripStr "zookeeper"))
        (pyStripStr "3.9.0") "Unknown" cats).take 4 =
      ["# " ++ upperStr (pyStripStr "zookeeper") ++ " Release " ++
        pyStripStr "3.9.0", "", "## Release Date", "Unknown"]) :=
  claim_C8_unknown_release_date jiraWorldNoVersion "zookeeper" "3.9.0"
    [⟨"3.8.0", some "2023-01-01"⟩] [⟨"ZOOKEEPER-1", "Fix quorum loss", "Bug"⟩]
    rfl rfl (by decide) rfl

/-- C9: if the issue fetch raises (e.g. a 500 status), the pipeline returns
the `"Error fetching issues: ..."` reply with no `pdf_name`; no document is
composed and no artifact is persisted (the `saved` component is `none`).
The pipeline is a total function, so no fault propagates to the caller. -/
theorem claim_C9_issue_fetch_error (w : JiraWorld) (p v e : String)
    (hx : w.extract = some (p, v))
    (hvs : ∃ vs, w.versions = .ok vs)
    (hiss : w.issues = .error e) :
    (jira_generate w).reply = "Error fetching issues: " ++ ("Error: " ++ e) ∧
    (jira_generate w).pdf_name = none ∧
    (jira_generate w).saved = none := by
  obtain ⟨vs, hvs⟩ := hvs
  have hgen : jira_generate w =
      ⟨"Error fetching issues: " ++ ("Error: " ++ e), none, none⟩ := by
    cases hf : vs.find? (fun ver => ver.name == pyStripStr v) with
    | none =>
      simp [jira_generate, hx, fetch_jira_version_info, hvs, hf,
        fetch_jira_issues, hiss]
    | some vv =>
      simp [jira_generate, hx, fetch_jira_version_info, hvs, hf,
        fetch_jira_issues, hiss]
  rw [hgen]
  exact ⟨rfl, rfl, rfl⟩

theorem claim_C9_witness :
    (jira_generate jiraWorldIssuesDown).reply =
        "Error fetching issues: " ++ ("Error: " ++ "500 Server Error") ∧
      (jira_generate jiraWorldIssuesDown).pdf_name = none ∧
      (jira_generate jiraWorldIssuesDown).saved = none :=
  claim_C9_issue_fetch_error jiraWorldIssuesDown "zookeeper" "3.9.0"
    "500 Server Error" rfl ⟨_, rfl⟩ rfl

/-- C10: the guardrail is fail-closed — `llama_guard_check` returns `true`
exactly when the guard model's response, up to surrounding whitespace and
letter case, is the single word `SAFE`; any other response yields `false`,
and a `false` verdict blocks the guarded MCP tools with the policy-violation
reply. -/
theorem claim_C10_guard_fail_closed :
    (∀ s : String, llama_guard_check s = true ↔
       ∃ pre core post : List Char, s.data = pre ++ core ++ post ∧
         (∀ c ∈ pre, pyWs c = true) ∧ (∀ c ∈ post, pyWs c = true) ∧
         core.map Char.toUpper = "SAFE".data) ∧
    (∀ (resp : String) (run : PipelineResult), llama_guard_check resp = false →
       guarded_generate resp run = .policyViolation
         "Your request violates usage policies. Please modify your input.") := by
  constructor
  · intro s
    rw [guard_true_iff_data]
    constructor
    · intro h
      obtain ⟨pre, post, hdecomp, hpre, hpost⟩ := pyStrip_decomp s.data
      exact ⟨pre, pyStrip s.data, post, hdecomp, hpre, hpost, h⟩
    · rintro ⟨pre, core, post, hdecomp, hpre, hpost, hmap⟩
      have hnw : ∀ c ∈ core, pyWs c = false := by
        intro c hcmem
        have hmm : c.toUpper ∈ ("SAFE" : String).data := by
          rw [← hmap]
          exact List.mem_map_of_mem Char.toUpper hcmem
        exact safe_char_not_ws hmm rfl
      have hstrip : pyStrip s.data = core := by
        rw [hdecomp]
        apply pyStrip_of_decomp hpre hpost
        · intro c r hcr
          exact hnw c (by rw [hcr]; simp)
        · intro c r hcr
          refine hnw c (List.mem_reverse.mp ?_)
          rw [hcr]
          simp
      rw [hstrip, hmap]
  · intro resp run h
    rw [guarded_generate, if_neg (by rw [h]; simp)]

theorem claim_C10_witness :
    guarded_generate "UNSAFE" (⟨"denied", none, none⟩ : PipelineResult) =
      .policyViolation
        "Your request violates usage policies. Please modify your input." :=
  claim_C10_guard_fail_closed.2 "UNSAFE" ⟨"denied", none, none⟩ (by decide)
